import Mathlib

/-!
Verification of the transient-rotordynamic repository: a shallow embedding,
over exact real arithmetic, of the analytical short-bearing force law
`fun_short_bearing` (file `test_short_bearing.py`) and of the Jeffcott-rotor
state-space assembly (file `run_Jeffcott_journal_bearing_short.py`).

Machine floats are modelled by `ℝ`; Lean's division-by-zero-is-zero
convention stands in for the IEEE non-finite results where the source
divides by zero.
-/

open Real Filter Topology Matrix

namespace ShortBearing

/-- Auxiliary angle tangent, `test_short_bearing.py` lines 18-29:
`E/(eps*(1-G))` when `G>1` (case 2a) or `G<1` (case 2b2); the sign-selected
`-1e16` / `1e16` substitute at the `G==1` singularity (cases 2b1a/2b1b). -/
noncomputable def tan_kappa_1 (eps E G : ℝ) : ℝ :=
  if 1 < G then E / (eps * (1 - G))
  else if G = 1 then (if 0 < E then -1e16 else 1e16)
  else E / (eps * (1 - G))

/-- `cos_kappa_1`, lines 20 and 30: the right-triangle identity
`1/sqrt(1+tan^2)`, negated on the `G<=1` branch. -/
noncomputable def cos_kappa_1 (eps E G : ℝ) : ℝ :=
  if 1 < G then 1 / Real.sqrt (1 + tan_kappa_1 eps E G ^ 2)
  else -(1 / Real.sqrt (1 + tan_kappa_1 eps E G ^ 2))

/-- `sin_kappa_1`, lines 21 and 31: `tan/sqrt(1+tan^2)`, negated on the
`G<=1` branch. -/
noncomputable def sin_kappa_1 (eps E G : ℝ) : ℝ :=
  if 1 < G then tan_kappa_1 eps E G / Real.sqrt (1 + tan_kappa_1 eps E G ^ 2)
  else -(tan_kappa_1 eps E G / Real.sqrt (1 + tan_kappa_1 eps E G ^ 2))

/-- Phase correction, lines 32-35: `pi` if `sin_kappa_1/(1+cos_kappa_1) < 0`,
else `0`. -/
noncomputable def piS (eps E G : ℝ) : ℝ :=
  if sin_kappa_1 eps E G / (1 + cos_kappa_1 eps E G) < 0 then Real.pi else 0

/-- Sommerfeld-type integral `I1`, line 37. -/
noncomputable def I1 (eps E G : ℝ) : ℝ :=
  2 * eps * cos_kappa_1 eps E G ^ 3 / (1 - eps ^ 2 * cos_kappa_1 eps E G ^ 2) ^ 2

/-- Sommerfeld-type integral `I2`, line 38. -/
noncomputable def I2 (eps E G : ℝ) : ℝ :=
  -(eps * sin_kappa_1 eps E G * (1 - (2 - eps ^ 2) * cos_kappa_1 eps E G ^ 2))
      / (1 - eps ^ 2) / (1 - eps ^ 2 * cos_kappa_1 eps E G ^ 2) ^ 2
    + (piS eps E G + Real.arctan (Real.sqrt (1 - eps ^ 2) / eps / sin_kappa_1 eps E G))
      / (1 - eps ^ 2) ^ (1.5 : ℝ)

/-- Sommerfeld-type integral `I3`, line 39. -/
noncomputable def I3 (eps E G : ℝ) : ℝ :=
  -(eps * sin_kappa_1 eps E G * (4 - eps ^ 2 * (1 + (2 + eps ^ 2) * cos_kappa_1 eps E G ^ 2)))
      / (1 - eps ^ 2) ^ 2 / (1 - eps ^ 2 * cos_kappa_1 eps E G ^ 2) ^ 2
    + (piS eps E G + Real.arctan (Real.sqrt (1 - eps ^ 2) / eps / sin_kappa_1 eps E G))
      * (2 + eps ^ 2) / (1 - eps ^ 2) ^ (2.5 : ℝ)

/-- `fun_short_bearing(eps, epsS, phiS, B2D)`, lines 10-43: dimensionless
radial and tangential short-bearing forces `(fr, fphi)`. -/
noncomputable def force (eps epsS phiS B2D : ℝ) : ℝ × ℝ :=
  let E := 2 * epsS
  let G := 2 * phiS
  if E = 0 ∧ G = 0 then
    (2 * eps ^ 2 / (1 - eps ^ 2) ^ 2,
     -(0.5 * Real.pi * eps / (1 - eps ^ 2) ^ (1.5 : ℝ)))
  else
    (B2D ^ 2 * (I2 eps E G * eps * (1 - G) - E * I1 eps E G),
     B2D ^ 2 * (I1 eps E G * eps * (1 - G) + E * (I2 eps E G - I3 eps E G)))

end ShortBearing

namespace Jeffcott

/-- Gravitational acceleration, `run_Jeffcott_journal_bearing_short.py` line 19. -/
def g : ℝ := 9.81

/-- Rotor mass in kg, line 24. -/
def m : ℝ := 0.1

/-- Journal mass in kg, line 25. -/
def mj : ℝ := 1e-5

/-- Shaft stiffness in N/m, line 27. -/
def cs : ℝ := 1e5

/-- Modal damping coefficient `1e-2*sqrt(cs*m)`, line 28. -/
noncomputable def d : ℝ := 1e-2 * Real.sqrt (cs * m)

/-- Mass matrix `M = np.diag([mj, m, mj, m])`, line 52. -/
def M : Matrix (Fin 4) (Fin 4) ℝ := Matrix.diagonal ![mj, m, mj, m]

/-- Relative-displacement coupling block `O = [[1,-1],[-1,1]]`, line 54. -/
def O : Matrix (Fin 2) (Fin 2) ℝ := Matrix.of !![1, -1; -1, 1]

/-- Damping matrix, line 55: the `np.vstack`/`np.hstack` block assembly
placing `d*O` on the diagonal and zero blocks off it. -/
noncomputable def D : Matrix (Fin 4) (Fin 4) ℝ :=
  Matrix.reindex finSumFinEquiv finSumFinEquiv (Matrix.fromBlocks (d • O) 0 0 (d • O))

/-- Stiffness matrix, line 56: block assembly of `cs*O`. -/
def C : Matrix (Fin 4) (Fin 4) ℝ :=
  Matrix.reindex finSumFinEquiv finSumFinEquiv (Matrix.fromBlocks (cs • O) 0 0 (cs • O))

/-- Modelled from the spec: `rd.state_space` lives in the `rotordynamic`
module, which is not in `src/`; per spec §4.3 it returns the 4×4
inverse-mass operator. -/
noncomputable def Minv : Matrix (Fin 4) (Fin 4) ℝ := M⁻¹

/-- Modelled from the spec: the 8×8 state-space transition matrix
`A = [[0, I], [-Minv·C, -Minv·D]]` built once by `rd.state_space`
(line 58; the builder itself is not in `src/`). -/
noncomputable def A : Matrix (Fin 8) (Fin 8) ℝ :=
  Matrix.reindex finSumFinEquiv finSumFinEquiv
    (Matrix.fromBlocks 0 1 (-(Minv * C)) (-(Minv * D)))

/-- Gravity vector in state space `g*np.hstack((zeros(6), [1,1]))`, line 59. -/
def gvec : Fin 8 → ℝ := g • ![0, 0, 0, 0, 0, 0, 1, 1]

/-- External physical force vector `[FB[0], FU[0], FB[1], FU[1]]`, line 45. -/
def Fvec (FB FU : Fin 2 → ℝ) : Fin 4 → ℝ := ![FB 0, FU 0, FB 1, FU 1]

/-- `rotor_Jeffcott(t, q)`, lines 42-47:
`A @ q + np.hstack((zeros(4), Minv @ Fvec)) - gvec`. The bearing force
`FB` and unbalance force `FU` are produced by the `rotordynamic` module,
which is not in `src/`; they enter here as parameters (the claims
evaluate them at zero). -/
noncomputable def rotor_Jeffcott (FB FU : Fin 2 → ℝ) (_t : ℝ) (q : Fin 8 → ℝ) :
    Fin 8 → ℝ :=
  A.mulVec q
    + ![0, 0, 0, 0, Minv.mulVec (Fvec FB FU) 0, Minv.mulVec (Fvec FB FU) 1,
        Minv.mulVec (Fvec FB FU) 2, Minv.mulVec (Fvec FB FU) 3]
    - gvec

end Jeffcott

namespace ShortBearing

/-- Branch reduction: the pure-rotation case (`E==0 and G==0`, line 14). -/
lemma force_pure_rotation (eps B2D : ℝ) :
    force eps 0 0 B2D
      = (2 * eps ^ 2 / (1 - eps ^ 2) ^ 2,
         -(0.5 * Real.pi * eps / (1 - eps ^ 2) ^ (1.5 : ℝ))) := by
  simp [force]

/-- Branch reduction: the rotation-plus-squeeze case (line 17). -/
lemma force_rotation_squeeze (eps epsS phiS B2D : ℝ) (h : ¬(epsS = 0 ∧ phiS = 0)) :
    force eps epsS phiS B2D
      = (B2D ^ 2 * (I2 eps (2 * epsS) (2 * phiS) * eps * (1 - 2 * phiS)
            - 2 * epsS * I1 eps (2 * epsS) (2 * phiS)),
         B2D ^ 2 * (I1 eps (2 * epsS) (2 * phiS) * eps * (1 - 2 * phiS)
            + 2 * epsS * (I2 eps (2 * epsS) (2 * phiS) - I3 eps (2 * epsS) (2 * phiS)))) := by
  simp only [force]
  rw [if_neg]
  rintro ⟨he, hg⟩
  exact h ⟨by linarith, by linarith⟩

/-- For `0 ≤ x`, the Python power `x**1.5` equals `x·√x`. -/
lemma rpow_three_halves {x : ℝ} (hx : 0 ≤ x) : x ^ (1.5 : ℝ) = x * Real.sqrt x := by
  rcases eq_or_lt_of_le hx with h | h
  · rw [← h, Real.zero_rpow (by norm_num), Real.sqrt_zero, mul_zero]
  · rw [show (1.5 : ℝ) = 1 + 1 / 2 by norm_num, Real.rpow_add h, Real.rpow_one,
      ← Real.sqrt_eq_rpow]

/-- `√(3/4) = √3/2`. -/
lemma sqrt_three_quarters : Real.sqrt (3 / 4) = Real.sqrt 3 / 2 := by
  rw [show (3 / 4 : ℝ) = 3 / 2 ^ 2 by norm_num, Real.sqrt_div (by norm_num) _,
    Real.sqrt_sq (by norm_num)]

/-- Claim C1: for `eps ∈ (0,1)` and any `B2D`, with `epsS = phiS = 0`
(so `E = G = 0`) the force is the pure-rotation closed form
`fr = 2·eps²/(1-eps²)²`, `fphi = -0.5·π·eps/(1-eps²)^1.5`; in particular
`force(0.5, 0, 0, 0.5)` has `fr = 8/9` and `fphi` within `10⁻³` of
`-1.2092`. -/
theorem pure_rotation_closed_form (eps B2D : ℝ) (h0 : 0 < eps) (h1 : eps < 1) :
    force eps 0 0 B2D
        = (2 * eps ^ 2 / (1 - eps ^ 2) ^ 2,
           -(0.5 * Real.pi * eps / (1 - eps ^ 2) ^ (1.5 : ℝ)))
      ∧ (force (1 / 2) 0 0 (1 / 2)).1 = 8 / 9
      ∧ |(force (1 / 2) 0 0 (1 / 2)).2 - (-1.2092)| < 1 / 1000 := by
  refine ⟨force_pure_rotation eps B2D, ?_, ?_⟩
  · rw [force_pure_rotation]
    norm_num
  · rw [force_pure_rotation]
    have h34 : (1 - (1 / 2 : ℝ) ^ 2) = 3 / 4 := by norm_num
    rw [h34, rpow_three_halves (by norm_num), sqrt_three_quarters]
    set s : ℝ := Real.sqrt 3 with hs
    have hs3 : s ^ 2 = 3 := Real.sq_sqrt (by norm_num)
    have hs0 : 0 < s := Real.sqrt_pos.mpr (by norm_num)
    have hsl : 1.732 < s := by
      rw [hs, show (1.732 : ℝ) = 1.732 by norm_num]
      exact (Real.lt_sqrt (by norm_num)).mpr (by norm_num)
    have hsh : s < 1.7321 := by
      rw [hs]
      exact (Real.sqrt_lt' (by norm_num)).mpr (by norm_num)
    have hval : -(0.5 * Real.pi * (1 / 2) / (3 / 4 * (s / 2))) = -(2 * Real.pi * s / 9) := by
      have h9 : 0.5 * Real.pi * (1 / 2) / (3 / 4 * (s / 2)) = 2 * Real.pi * s / 9 := by
        rw [div_eq_div_iff (by positivity) (by norm_num)]
        linear_combination (-(3 / 4) * Real.pi) * hs3
      rw [h9]
    rw [hval, abs_lt]
    constructor
    · nlinarith [Real.pi_lt_d6]
    · nlinarith [Real.pi_gt_d6]

/-- Witness for C1 at `eps = 1/2`, `B2D = 1/2`. -/
theorem pure_rotation_closed_form_witness :
    (0 : ℝ) < 1 / 2 ∧ (1 / 2 : ℝ) < 1 ∧ (force (1 / 2) 0 0 (1 / 2)).1 = 8 / 9 :=
  ⟨by norm_num, by norm_num,
    (pure_rotation_closed_form (1 / 2) (1 / 2) (by norm_num) (by norm_num)).2.1⟩

/-- Claim C4: branch selection for the auxiliary angle `kappa_1`:
for `G > 1` the positive branch (`tan = E/(eps(1-G))`, `cos`, `sin`
unnegated); for `G < 1` the same tangent with both `cos` and `sin`
negated; for `G == 1` the substitute `-1e16` when `E > 0` else `+1e16`,
with `cos`, `sin` from the negated branch. -/
theorem kappa_branch_selection (eps E G : ℝ) :
    (1 < G → tan_kappa_1 eps E G = E / (eps * (1 - G))
        ∧ cos_kappa_1 eps E G = 1 / Real.sqrt (1 + tan_kappa_1 eps E G ^ 2)
        ∧ sin_kappa_1 eps E G = tan_kappa_1 eps E G / Real.sqrt (1 + tan_kappa_1 eps E G ^ 2))
      ∧ (G < 1 → tan_kappa_1 eps E G = E / (eps * (1 - G))
        ∧ cos_kappa_1 eps E G = -(1 / Real.sqrt (1 + tan_kappa_1 eps E G ^ 2))
        ∧ sin_kappa_1 eps E G = -(tan_kappa_1 eps E G / Real.sqrt (1 + tan_kappa_1 eps E G ^ 2)))
      ∧ (G = 1 → ((0 < E → tan_kappa_1 eps E G = -1e16)
          ∧ (¬0 < E → tan_kappa_1 eps E G = 1e16))
        ∧ cos_kappa_1 eps E G = -(1 / Real.sqrt (1 + tan_kappa_1 eps E G ^ 2))
        ∧ sin_kappa_1 eps E G = -(tan_kappa_1 eps E G / Real.sqrt (1 + tan_kappa_1 eps E G ^ 2))) := by
  refine ⟨fun h => ⟨?_, ?_, ?_⟩, fun h => ⟨?_, ?_, ?_⟩, fun h => ?_⟩
  · rw [tan_kappa_1, if_pos h]
  · rw [cos_kappa_1, if_pos h]
  · rw [sin_kappa_1, if_pos h]
  · rw [tan_kappa_1, if_neg (not_lt.mpr h.le), if_neg (ne_of_lt h)]
  · rw [cos_kappa_1, if_neg (not_lt.mpr h.le)]
  · rw [sin_kappa_1, if_neg (not_lt.mpr h.le)]
  · subst h
    have h1 : ¬(1 : ℝ) < 1 := lt_irrefl 1
    refine ⟨⟨fun hE => ?_, fun hE => ?_⟩, ?_, ?_⟩
    · rw [tan_kappa_1, if_neg h1, if_pos rfl, if_pos hE]
    · rw [tan_kappa_1, if_neg h1, if_pos rfl, if_neg hE]
    · rw [cos_kappa_1, if_neg h1]
    · rw [sin_kappa_1, if_neg h1]

/-- Witness for C4 covering all three branches at concrete inputs. -/
theorem kappa_branch_selection_witness :
    tan_kappa_1 0.7 2 1 = -1e16 ∧ tan_kappa_1 0.7 (-2) 1 = 1e16
      ∧ tan_kappa_1 0.7 2 2 = 2 / (0.7 * (1 - 2))
      ∧ tan_kappa_1 0.7 2 0 = 2 / (0.7 * (1 - 0)) :=
  ⟨((kappa_branch_selection 0.7 2 1).2.2 rfl).1.1 (by norm_num),
   ((kappa_branch_selection 0.7 (-2) 1).2.2 rfl).1.2 (by norm_num),
   ((kappa_branch_selection 0.7 2 2).1 (by norm_num)).1,
   ((kappa_branch_selection 0.7 2 0).2.1 (by norm_num)).1⟩

/-- The derived cosine always satisfies `cos(kappa_1)² ≤ 1`. -/
lemma cos_kappa_sq_le_one (eps E G : ℝ) : cos_kappa_1 eps E G ^ 2 ≤ 1 := by
  have h1 : (1 : ℝ) ≤ Real.sqrt (1 + tan_kappa_1 eps E G ^ 2) := by
    rw [show (1 : ℝ) = Real.sqrt 1 by rw [Real.sqrt_one]]
    exact Real.sqrt_le_sqrt (by nlinarith [sq_nonneg (tan_kappa_1 eps E G),
      Real.sqrt_one])
  have h3 : 1 ≤ Real.sqrt (1 + tan_kappa_1 eps E G ^ 2) ^ 2 := by nlinarith
  have h2 : (1 / Real.sqrt (1 + tan_kappa_1 eps E G ^ 2)) ^ 2 ≤ 1 := by
    rw [div_pow, one_pow, div_le_one (by nlinarith)]
    exact h3
  rw [cos_kappa_1]
  split
  · exact h2
  · rw [neg_sq]
    exact h2

/-- Claim C5: for `eps ∈ [0,1)` every denominator `1-eps²` and
`1-eps²·cos(kappa_1)²` (with `cos(kappa_1)² ≤ 1`, as the derived cosine
always satisfies) is strictly positive, so the divisions are well defined;
at `eps == 1` both denominators vanish and the computation divides by
zero with no clamping of `eps`. -/
theorem denominators_pos (eps : ℝ) (h0 : 0 ≤ eps) (h1 : eps < 1) :
    (∀ c : ℝ, c ^ 2 ≤ 1 → 0 < 1 - eps ^ 2 ∧ 0 < 1 - eps ^ 2 * c ^ 2)
      ∧ (∀ E G, cos_kappa_1 eps E G ^ 2 ≤ 1)
      ∧ 1 - (1 : ℝ) ^ 2 = 0 ∧ 1 - (1 : ℝ) ^ 2 * cos_kappa_1 1 0 0 ^ 2 = 0 := by
  have he : eps ^ 2 < 1 := by nlinarith
  have htan : tan_kappa_1 1 0 0 = 0 := by norm_num [tan_kappa_1]
  have hcos : cos_kappa_1 1 0 0 = -1 := by
    norm_num [cos_kappa_1, htan, Real.sqrt_one]
  refine ⟨fun c hc => ⟨by nlinarith, ?_⟩, fun E G => cos_kappa_sq_le_one eps E G,
    by norm_num, by rw [hcos]; norm_num⟩
  nlinarith [sq_nonneg eps, sq_nonneg c, mul_le_mul_of_nonneg_left hc (sq_nonneg eps)]

/-- Witness for C5 at `eps = 1/2`, `c = 1/2`. -/
theorem denominators_pos_witness :
    0 < 1 - (1 / 2 : ℝ) ^ 2 ∧ 0 < 1 - (1 / 2 : ℝ) ^ 2 * (1 / 2 : ℝ) ^ 2 :=
  (denominators_pos (1 / 2) (by norm_num) (by norm_num)).1 (1 / 2) (by norm_num)

/-- Claim C10: `B2D` enters the branches inhomogeneously: the
pure-rotation result is independent of `B2D`, while the
rotation-plus-squeeze result scales quadratically in `B2D`. -/
theorem b2d_scaling :
    (∀ eps b₁ b₂ : ℝ, force eps 0 0 b₁ = force eps 0 0 b₂)
      ∧ ∀ eps epsS phiS c b : ℝ, ¬(epsS = 0 ∧ phiS = 0) →
          force eps epsS phiS (c * b)
            = (c ^ 2 * (force eps epsS phiS b).1, c ^ 2 * (force eps epsS phiS b).2) := by
  constructor
  · intro eps b₁ b₂
    rw [force_pure_rotation, force_pure_rotation]
  · intro eps epsS phiS c b h
    rw [force_rotation_squeeze _ _ _ _ h, force_rotation_squeeze _ _ _ _ h]
    simp only [Prod.mk.injEq]
    constructor <;> ring

/-- Witness for C10 at `eps = 0.7`, `epsS = 1`, `phiS = 0`, `c = 2`, `b = 1`. -/
theorem b2d_scaling_witness :
    force 0.7 1 0 (2 * 1) = (2 ^ 2 * (force 0.7 1 0 1).1, 2 ^ 2 * (force 0.7 1 0 1).2) :=
  b2d_scaling.2 0.7 1 0 2 1 (by norm_num)

/-- With `E = 0` and `G ≠ 1` the tangent is literally `0/(eps·(1-G)) = 0`
(also when `eps = 0`, by the division-by-zero convention). -/
lemma tan_zero_of_E_zero (eps G : ℝ) (h : G ≠ 1) : tan_kappa_1 eps 0 G = 0 := by
  rw [tan_kappa_1]
  rcases lt_or_le 1 G with hg | hg
  · rw [if_pos hg, zero_div]
  · rw [if_neg (not_lt.mpr hg), if_neg h, zero_div]

/-- Zero tangent forces zero sine on both branches. -/
lemma sin_zero_of_tan_zero (eps E G : ℝ) (h : tan_kappa_1 eps E G = 0) :
    sin_kappa_1 eps E G = 0 := by
  rw [sin_kappa_1, h]
  split <;> simp

/-- Zero tangent on the negated branch gives `cos(kappa_1) = -1`. -/
lemma cos_neg_one_of_tan_zero (eps E G : ℝ) (hG : ¬1 < G)
    (h : tan_kappa_1 eps E G = 0) : cos_kappa_1 eps E G = -1 := by
  rw [cos_kappa_1, if_neg hG, h]
  norm_num [Real.sqrt_one]

/-- Nonzero tangent keeps the derived cosine strictly inside `(-1, 1)`. -/
lemma cos_kappa_bounds (eps E G : ℝ) (ht : tan_kappa_1 eps E G ≠ 0) :
    -1 < cos_kappa_1 eps E G ∧ cos_kappa_1 eps E G < 1 := by
  have ht2 : 0 < tan_kappa_1 eps E G ^ 2 := by positivity
  have h2 : 1 < Real.sqrt (1 + tan_kappa_1 eps E G ^ 2) :=
    (Real.lt_sqrt (by norm_num)).mpr (by nlinarith)
  have h3 : 0 < 1 / Real.sqrt (1 + tan_kappa_1 eps E G ^ 2) := by positivity
  have h4 : 1 / Real.sqrt (1 + tan_kappa_1 eps E G ^ 2) < 1 :=
    (div_lt_one (by positivity)).mpr h2
  rw [cos_kappa_1]
  split
  · exact ⟨by linarith, h4⟩
  · exact ⟨by linarith, by linarith⟩

/-- Reflecting `G ↦ 2-G` (i.e. `phiS ↦ 1-phiS`) negates the tangent,
away from the `G==1` singularity. -/
lemma tan_kappa_reflect (eps E G : ℝ) (h : G ≠ 1) :
    tan_kappa_1 eps E (2 - G) = -tan_kappa_1 eps E G := by
  rcases lt_trichotomy 1 G with hg | hg | hg
  · have h2 : ¬1 < 2 - G := by intro hh; linarith
    have h3 : 2 - G ≠ 1 := fun hh => h (by linarith)
    rw [tan_kappa_1, if_neg h2, if_neg h3, tan_kappa_1, if_pos hg,
      show eps * (1 - (2 - G)) = -(eps * (1 - G)) from by ring, div_neg]
  · exact absurd hg.symm h
  · have h2 : 1 < 2 - G := by linarith
    rw [tan_kappa_1, if_pos h2, tan_kappa_1, if_neg (not_lt.mpr hg.le), if_neg (ne_of_lt hg),
      show eps * (1 - (2 - G)) = -(eps * (1 - G)) from by ring, div_neg]

/-- Reflecting `G ↦ 2-G` negates the derived cosine. -/
lemma cos_kappa_reflect (eps E G : ℝ) (h : G ≠ 1) :
    cos_kappa_1 eps E (2 - G) = -cos_kappa_1 eps E G := by
  rcases lt_trichotomy 1 G with hg | hg | hg
  · have h2 : ¬1 < 2 - G := by intro hh; linarith
    rw [cos_kappa_1, if_neg h2, tan_kappa_reflect eps E G h, neg_sq,
      cos_kappa_1, if_pos hg]
  · exact absurd hg.symm h
  · have h2 : 1 < 2 - G := by linarith
    rw [cos_kappa_1, if_pos h2, tan_kappa_reflect eps E G h, neg_sq,
      cos_kappa_1, if_neg (not_lt.mpr hg.le), neg_neg]

/-- Reflecting `G ↦ 2-G` leaves the derived sine unchanged. -/
lemma sin_kappa_reflect (eps E G : ℝ) (h : G ≠ 1) :
    sin_kappa_1 eps E (2 - G) = sin_kappa_1 eps E G := by
  rcases lt_trichotomy 1 G with hg | hg | hg
  · have h2 : ¬1 < 2 - G := by intro hh; linarith
    rw [sin_kappa_1, if_neg h2, tan_kappa_reflect eps E G h, neg_sq, neg_div, neg_neg,
      sin_kappa_1, if_pos hg]
  · exact absurd hg.symm h
  · have h2 : 1 < 2 - G := by linarith
    rw [sin_kappa_1, if_pos h2, tan_kappa_reflect eps E G h, neg_sq, neg_div,
      sin_kappa_1, if_neg (not_lt.mpr hg.le)]

/-- Reflecting `G ↦ 2-G` leaves the phase correction `piS` unchanged. -/
lemma piS_reflect (eps E G : ℝ) (h : G ≠ 1) :
    piS eps E (2 - G) = piS eps E G := by
  by_cases ht : tan_kappa_1 eps E G = 0
  · have hs : sin_kappa_1 eps E G = 0 := sin_zero_of_tan_zero eps E G ht
    have hs' : sin_kappa_1 eps E (2 - G) = 0 := by rw [sin_kappa_reflect eps E G h, hs]
    simp [piS, hs, hs']
  · have hb := cos_kappa_bounds eps E G ht
    rw [piS, piS, sin_kappa_reflect eps E G h, cos_kappa_reflect eps E G h,
      show 1 + -cos_kappa_1 eps E G = 1 - cos_kappa_1 eps E G from by ring]
    have key : ∀ d : ℝ, 0 < d → (sin_kappa_1 eps E G / d < 0 ↔ sin_kappa_1 eps E G < 0) :=
      fun d hd => by rw [div_lt_iff₀ hd, zero_mul]
    have hc1 : 0 < 1 - cos_kappa_1 eps E G := by linarith [hb.2]
    have hc2 : 0 < 1 + cos_kappa_1 eps E G := by linarith [hb.1]
    rw [if_congr ((key _ hc1).trans (key _ hc2).symm) rfl rfl]

/-- Reflecting `G ↦ 2-G` negates `I1` (odd in `cos(kappa_1)`). -/
lemma I1_reflect (eps E G : ℝ) (h : G ≠ 1) : I1 eps E (2 - G) = -I1 eps E G := by
  rw [I1, I1, cos_kappa_reflect eps E G h]
  ring

/-- Reflecting `G ↦ 2-G` leaves `I2` unchanged. -/
lemma I2_reflect (eps E G : ℝ) (h : G ≠ 1) : I2 eps E (2 - G) = I2 eps E G := by
  rw [I2, I2, cos_kappa_reflect eps E G h, sin_kappa_reflect eps E G h,
    piS_reflect eps E G h]
  ring

/-- Reflecting `G ↦ 2-G` leaves `I3` unchanged. -/
lemma I3_reflect (eps E G : ℝ) (h : G ≠ 1) : I3 eps E (2 - G) = I3 eps E G := by
  rw [I3, I3, cos_kappa_reflect eps E G h, sin_kappa_reflect eps E G h,
    piS_reflect eps E G h]
  ring

/-- Claim C3 counterexample: at `(eps, epsS, phiS, B2D) = (1/2, 0, 0, 1/2)`
the claimed symmetry `force(eps,-epsS,-phiS) = (fr, -fphi)` fails, because
it would force `fphi = 0` while the pure-rotation `fphi` is negative. -/
theorem speed_negation_symmetry_cex :
    ¬((force (1 / 2) (-0) (-0) (1 / 2)).1 = (force (1 / 2) 0 0 (1 / 2)).1
      ∧ (force (1 / 2) (-0) (-0) (1 / 2)).2 = -(force (1 / 2) 0 0 (1 / 2)).2) := by
  rintro ⟨-, h⟩
  rw [neg_zero] at h
  have h0 : (force (1 / 2) 0 0 (1 / 2)).2 = 0 := by linarith
  rw [force_pure_rotation] at h0
  have hp : (0 : ℝ) < 0.5 * Real.pi * (1 / 2) / (1 - (1 / 2 : ℝ) ^ 2) ^ (1.5 : ℝ) := by
    have h34 : (0 : ℝ) < 1 - (1 / 2 : ℝ) ^ 2 := by norm_num
    have := Real.rpow_pos_of_pos h34 (1.5 : ℝ)
    positivity
  simp only at h0
  linarith

/-- Claim C3 amended: the actual reflection symmetry of the
rotation-plus-squeeze branch is `phiS ↦ 1-phiS` (`G ↦ 2-G`) at fixed
`epsS`: the radial force changes sign and the tangential force is
invariant, provided neither side is the pure-rotation branch and
`G ≠ 1`. -/
theorem squeeze_reflection_symmetry (eps epsS phiS B2D : ℝ) (hG : 2 * phiS ≠ 1)
    (h1 : ¬(epsS = 0 ∧ phiS = 0)) (h2 : ¬(epsS = 0 ∧ phiS = 1)) :
    force eps epsS (1 - phiS) B2D
      = (-(force eps epsS phiS B2D).1, (force eps epsS phiS B2D).2) := by
  have hns : ¬(epsS = 0 ∧ 1 - phiS = 0) := by
    rintro ⟨he, hp⟩
    exact h2 ⟨he, by linarith⟩
  rw [force_rotation_squeeze _ _ _ _ hns, force_rotation_squeeze _ _ _ _ h1,
    show 2 * (1 - phiS) = 2 - 2 * phiS from by ring,
    I1_reflect _ _ _ hG, I2_reflect _ _ _ hG, I3_reflect _ _ _ hG]
  simp only [Prod.mk.injEq]
  constructor <;> ring

/-- Witness for the amended C3 at `(0.7, 1, 1, 0.5)`. -/
theorem squeeze_reflection_symmetry_witness :
    force 0.7 1 (1 - 1) 0.5 = (-(force 0.7 1 1 0.5).1, (force 0.7 1 1 0.5).2) :=
  squeeze_reflection_symmetry 0.7 1 1 0.5 (by norm_num) (by norm_num) (by norm_num)

/-- Claim C9 counterexample: at `G = 1` (inside the claim's domain
`G ≠ 0`) the tangent with `epsS = 0` is the substitute `1e16`, not `0`,
and the derived sine is nonzero, so the arctangent divisor is not zero
there. -/
theorem zero_epsS_G_one_cex :
    tan_kappa_1 0.7 0 1 = 1e16 ∧ sin_kappa_1 0.7 0 1 ≠ 0 := by
  have ht : tan_kappa_1 0.7 0 1 = 1e16 := by norm_num [tan_kappa_1]
  refine ⟨ht, ?_⟩
  rw [sin_kappa_1, if_neg (by norm_num), ht]
  have h1 : 0 < (1e16 : ℝ) / Real.sqrt (1 + (1e16 : ℝ) ^ 2) := by
    have := Real.sqrt_pos.mpr (show (0 : ℝ) < 1 + (1e16 : ℝ) ^ 2 by positivity)
    positivity
  intro hcontra
  rw [neg_eq_zero] at hcontra
  linarith

/-- Claim C9 amended: for `eps ∈ (0,1)`, `epsS = 0` and `G ∉ {0, 1}`,
the tangent is `0`, hence the sine is `0` and the arctangent term's
divisor vanishes; when additionally `G < 1`, `cos(kappa_1) = -1` so the
phase-correction guard's denominator `1 + cos(kappa_1)` also vanishes.
The regression fixtures `(0.7, 0, 1, 0.5)` and `(0.7, 0, -0.5, 0.5)`
(i.e. `G = 2` and `G = -1`) lie in this hazard set. -/
theorem zero_epsS_division_hazard (eps G : ℝ) (_h0 : 0 < eps) (_h1 : eps < 1)
    (_hG0 : G ≠ 0) (hG1 : G ≠ 1) :
    sin_kappa_1 eps 0 G = 0
      ∧ (G < 1 → cos_kappa_1 eps 0 G = -1 ∧ 1 + cos_kappa_1 eps 0 G = 0)
      ∧ sin_kappa_1 0.7 0 2 = 0 ∧ sin_kappa_1 0.7 0 (-1) = 0
      ∧ cos_kappa_1 0.7 0 (-1) = -1 := by
  have fix1 : sin_kappa_1 0.7 0 2 = 0 :=
    sin_zero_of_tan_zero _ _ _ (tan_zero_of_E_zero 0.7 2 (by norm_num))
  have fix2 : sin_kappa_1 0.7 0 (-1) = 0 :=
    sin_zero_of_tan_zero _ _ _ (tan_zero_of_E_zero 0.7 (-1) (by norm_num))
  have fix3 : cos_kappa_1 0.7 0 (-1) = -1 :=
    cos_neg_one_of_tan_zero 0.7 0 (-1) (by norm_num)
      (tan_zero_of_E_zero 0.7 (-1) (by norm_num))
  refine ⟨sin_zero_of_tan_zero _ _ _ (tan_zero_of_E_zero eps G hG1),
    fun hlt => ?_, fix1, fix2, fix3⟩
  have hc : cos_kappa_1 eps 0 G = -1 :=
    cos_neg_one_of_tan_zero eps 0 G (not_lt.mpr hlt.le) (tan_zero_of_E_zero eps G hG1)
  exact ⟨hc, by rw [hc]; ring⟩

/-- Witness for the amended C9 at `eps = 1/2`, `G = -1`. -/
theorem zero_epsS_division_hazard_witness :
    sin_kappa_1 (1 / 2) 0 (-1) = 0 ∧ cos_kappa_1 (1 / 2) 0 (-1) = -1 := by
  have h := zero_epsS_division_hazard (1 / 2) (-1) (by norm_num) (by norm_num)
    (by norm_num) (by norm_num)
  exact ⟨h.1, (h.2.1 (by norm_num)).1⟩

/-- Claim C6 counterexample: at `eps = 0` with `sin(kappa_1) = 0`
(input `(0, 0, 1, 1/2)`, where `G = 2`), the computation is not
intercepted by any error classification: it proceeds through the
zero-divisor `tan`/`arctan` expressions and returns a value
(`(0,0)` under the exact-arithmetic division-by-zero convention). -/
theorem eps_zero_proceeds_cex :
    sin_kappa_1 0 0 2 = 0 ∧ force 0 0 1 (1 / 2) = (0, 0) := by
  have htan : tan_kappa_1 0 0 2 = 0 := tan_zero_of_E_zero 0 2 (by norm_num)
  refine ⟨sin_zero_of_tan_zero _ _ _ htan, ?_⟩
  rw [force_rotation_squeeze 0 0 1 (1 / 2) (by norm_num)]
  simp only [Prod.mk.injEq]
  constructor <;> ring

/-- Claim C6 amended: the code contains no `DomainViolation`
classification: whenever `eps = 0`, `epsS = 0` and `phiS ∉ {0, 1/2}`
(so `sin(kappa_1) = 0` and the `tan`/`arctan` divisions are by zero),
`force` proceeds and returns the junk value `(0, 0)` of the
exact-arithmetic embedding. -/
theorem eps_zero_no_domain_violation (phiS B2D : ℝ) (h0 : phiS ≠ 0)
    (h1 : 2 * phiS ≠ 1) :
    sin_kappa_1 0 0 (2 * phiS) = 0 ∧ force 0 0 phiS B2D = (0, 0) := by
  have htan : tan_kappa_1 0 0 (2 * phiS) = 0 := tan_zero_of_E_zero 0 (2 * phiS) h1
  refine ⟨sin_zero_of_tan_zero _ _ _ htan, ?_⟩
  rw [force_rotation_squeeze 0 0 phiS B2D (fun hc => h0 hc.2)]
  simp only [Prod.mk.injEq]
  constructor <;> ring

/-- Witness for the amended C6 at `phiS = 1`, `B2D = 1/2`. -/
theorem eps_zero_no_domain_violation_witness :
    sin_kappa_1 0 0 (2 * 1) = 0 ∧ force 0 0 1 (1 / 2) = (0, 0) :=
  eps_zero_no_domain_violation 1 (1 / 2) (by norm_num) (by norm_num)

lemma one_add_sq_atTop : Tendsto (fun t : ℝ => 1 + t ^ 2) atTop atTop :=
  tendsto_atTop_add_const_left _ 1 (tendsto_pow_atTop two_ne_zero)

lemma one_add_sq_atBot : Tendsto (fun t : ℝ => 1 + t ^ 2) atBot atTop := by
  have h := one_add_sq_atTop.comp tendsto_neg_atBot_atTop
  exact h.congr fun t => by simp

/-- `1/√(1+t²) → 0` as `t → ∞`. -/
lemma inv_sqrt_one_add_sq_atTop :
    Tendsto (fun t : ℝ => 1 / Real.sqrt (1 + t ^ 2)) atTop (𝓝 0) := by
  have h3 : Tendsto (fun t : ℝ => (1 + t ^ 2)⁻¹) atTop (𝓝 0) :=
    one_add_sq_atTop.inv_tendsto_atTop
  have h4 := (Real.continuous_sqrt.tendsto 0).comp h3
  rw [Real.sqrt_zero] at h4
  exact h4.congr fun t => by
    simp only [Function.comp_apply, Real.sqrt_inv, one_div]

/-- `1/√(1+t²) → 0` as `t → -∞`. -/
lemma inv_sqrt_one_add_sq_atBot :
    Tendsto (fun t : ℝ => 1 / Real.sqrt (1 + t ^ 2)) atBot (𝓝 0) := by
  have h := inv_sqrt_one_add_sq_atTop.comp tendsto_neg_atBot_atTop
  exact h.congr fun t => by simp

/-- `t/√(1+t²) → 1` as `t → ∞`. -/
lemma ratio_sqrt_one_add_sq_atTop :
    Tendsto (fun t : ℝ => t / Real.sqrt (1 + t ^ 2)) atTop (𝓝 1) := by
  have h3 : Tendsto (fun t : ℝ => (1 + t ^ 2)⁻¹) atTop (𝓝 0) :=
    one_add_sq_atTop.inv_tendsto_atTop
  have h2 : Tendsto (fun t : ℝ => 1 - (1 + t ^ 2)⁻¹) atTop (𝓝 1) := by
    simpa using tendsto_const_nhds.sub h3
  have h4 := (Real.continuous_sqrt.tendsto 1).comp h2
  rw [Real.sqrt_one] at h4
  refine Tendsto.congr' ?_ h4
  filter_upwards [eventually_gt_atTop (0 : ℝ)] with t ht
  have hden : (0 : ℝ) < 1 + t ^ 2 := by positivity
  have harg : 1 - (1 + t ^ 2)⁻¹ = t ^ 2 / (1 + t ^ 2) := by
    field_simp
  simp only [Function.comp_apply, harg]
  rw [Real.sqrt_div (sq_nonneg t), Real.sqrt_sq ht.le]

/-- `t/√(1+t²) → -1` as `t → -∞`. -/
lemma ratio_sqrt_one_add_sq_atBot :
    Tendsto (fun t : ℝ => t / Real.sqrt (1 + t ^ 2)) atBot (𝓝 (-1)) := by
  have h := (ratio_sqrt_one_add_sq_atTop.comp tendsto_neg_atBot_atTop).neg
  rw [show -(1 : ℝ) = -1 from rfl] at h
  exact h.congr fun t => by
    simp only [Function.comp_apply, neg_sq, neg_div, neg_neg]

/-- As `phiS → (1/2)⁻` the tangent `E/(eps·(1-G))` blows up to `+∞`
(for `eps, E > 0`). -/
lemma tan_formula_below_atTop (eps E : ℝ) (he : 0 < eps) (hE : 0 < E) :
    Tendsto (fun p : ℝ => E / (eps * (1 - 2 * p))) (𝓝[<] (1 / 2 : ℝ)) atTop := by
  have h1 : Tendsto (fun p : ℝ => eps * (1 - 2 * p)) (𝓝[<] (1 / 2 : ℝ)) (𝓝[>] 0) := by
    apply tendsto_nhdsWithin_of_tendsto_nhds_of_eventually_within
    · have hc : Continuous fun p : ℝ => eps * (1 - 2 * p) := by fun_prop
      have := (hc.tendsto (1 / 2)).mono_left (nhdsWithin_le_nhds (s := Set.Iio (1 / 2 : ℝ)))
      simpa using this
    · filter_upwards [self_mem_nhdsWithin] with p hp
      have hp' : p < 1 / 2 := hp
      have : (0 : ℝ) < 1 - 2 * p := by linarith
      exact Set.mem_Ioi.mpr (by positivity)
  have h2 : Tendsto (fun x : ℝ => E / x) (𝓝[>] (0 : ℝ)) atTop := by
    have h3 := (tendsto_inv_zero_atTop (𝕜 := ℝ)).const_mul_atTop hE
    exact h3.congr fun x => (div_eq_mul_inv E x).symm
  exact h2.comp h1

/-- As `phiS → (1/2)⁺` the tangent `E/(eps·(1-G))` blows up to `-∞`
(for `eps, E > 0`). -/
lemma tan_formula_above_atBot (eps E : ℝ) (he : 0 < eps) (hE : 0 < E) :
    Tendsto (fun p : ℝ => E / (eps * (1 - 2 * p))) (𝓝[>] (1 / 2 : ℝ)) atBot := by
  have h1 : Tendsto (fun p : ℝ => -(eps * (1 - 2 * p))) (𝓝[>] (1 / 2 : ℝ)) (𝓝[>] 0) := by
    apply tendsto_nhdsWithin_of_tendsto_nhds_of_eventually_within
    · have hc : Continuous fun p : ℝ => -(eps * (1 - 2 * p)) := by fun_prop
      have := (hc.tendsto (1 / 2)).mono_left (nhdsWithin_le_nhds (s := Set.Ioi (1 / 2 : ℝ)))
      simpa using this
    · filter_upwards [self_mem_nhdsWithin] with p hp
      have hp' : (1 / 2 : ℝ) < p := hp
      have h2p : (0 : ℝ) < 2 * p - 1 := by linarith
      have : -(eps * (1 - 2 * p)) = eps * (2 * p - 1) := by ring
      rw [this]
      exact Set.mem_Ioi.mpr (by positivity)
  have h2 : Tendsto (fun x : ℝ => E / x) (𝓝[>] (0 : ℝ)) atTop := by
    have h3 := (tendsto_inv_zero_atTop (𝕜 := ℝ)).const_mul_atTop hE
    exact h3.congr fun x => (div_eq_mul_inv E x).symm
  have h4 := (tendsto_neg_atTop_atBot (β := ℝ)).comp (h2.comp h1)
  exact h4.congr fun p => by
    simp only [Function.comp_apply, div_neg, neg_neg]

/-- One-sided limit of the derived sine from below `phiS = 1/2`. -/
lemma sin_kappa_below_limit (eps E : ℝ) (he : 0 < eps) (hE : 0 < E) :
    Tendsto (fun p : ℝ => sin_kappa_1 eps E (2 * p)) (𝓝[<] (1 / 2 : ℝ)) (𝓝 (-1)) := by
  have ht := tan_formula_below_atTop eps E he hE
  have hmain := (ratio_sqrt_one_add_sq_atTop.comp ht).neg
  rw [show -(1 : ℝ) = -1 from rfl] at hmain
  refine Tendsto.congr' ?_ hmain
  filter_upwards [self_mem_nhdsWithin] with p hp
  have hp' : p < 1 / 2 := hp
  have hG1 : ¬1 < 2 * p := by linarith
  have hGne : (2 : ℝ) * p ≠ 1 := by intro hh; linarith
  simp only [Function.comp_apply]
  rw [sin_kappa_1, if_neg hG1, tan_kappa_1, if_neg hG1, if_neg hGne]

/-- One-sided limit of the derived sine from above `phiS = 1/2`. -/
lemma sin_kappa_above_limit (eps E : ℝ) (he : 0 < eps) (hE : 0 < E) :
    Tendsto (fun p : ℝ => sin_kappa_1 eps E (2 * p)) (𝓝[>] (1 / 2 : ℝ)) (𝓝 (-1)) := by
  have ht := tan_formula_above_atBot eps E he hE
  have hmain := ratio_sqrt_one_add_sq_atBot.comp ht
  refine Tendsto.congr' ?_ hmain
  filter_upwards [self_mem_nhdsWithin] with p hp
  have hp' : (1 / 2 : ℝ) < p := hp
  have hG1 : 1 < 2 * p := by linarith
  simp only [Function.comp_apply]
  rw [sin_kappa_1, if_pos hG1, tan_kappa_1, if_pos hG1]

/-- One-sided limit of the derived cosine from below `phiS = 1/2`. -/
lemma cos_kappa_below_limit (eps E : ℝ) (he : 0 < eps) (hE : 0 < E) :
    Tendsto (fun p : ℝ => cos_kappa_1 eps E (2 * p)) (𝓝[<] (1 / 2 : ℝ)) (𝓝 0) := by
  have ht := tan_formula_below_atTop eps E he hE
  have hmain := (inv_sqrt_one_add_sq_atTop.comp ht).neg
  rw [neg_zero] at hmain
  refine Tendsto.congr' ?_ hmain
  filter_upwards [self_mem_nhdsWithin] with p hp
  have hp' : p < 1 / 2 := hp
  have hG1 : ¬1 < 2 * p := by linarith
  have hGne : (2 : ℝ) * p ≠ 1 := by intro hh; linarith
  simp only [Function.comp_apply]
  rw [cos_kappa_1, if_neg hG1, tan_kappa_1, if_neg hG1, if_neg hGne]

/-- One-sided limit of the derived cosine from above `phiS = 1/2`. -/
lemma cos_kappa_above_limit (eps E : ℝ) (he : 0 < eps) (hE : 0 < E) :
    Tendsto (fun p : ℝ => cos_kappa_1 eps E (2 * p)) (𝓝[>] (1 / 2 : ℝ)) (𝓝 0) := by
  have ht := tan_formula_above_atBot eps E he hE
  have hmain := inv_sqrt_one_add_sq_atBot.comp ht
  refine Tendsto.congr' ?_ hmain
  filter_upwards [self_mem_nhdsWithin] with p hp
  have hp' : (1 / 2 : ℝ) < p := hp
  have hG1 : 1 < 2 * p := by linarith
  simp only [Function.comp_apply]
  rw [cos_kappa_1, if_pos hG1, tan_kappa_1, if_pos hG1]

/-- At `G = 1` with `E > 0` the substitute `-1e16` makes the derived
sine strictly positive (opposite in sign to the one-sided limits). -/
lemma sin_kappa_at_one_pos (eps E : ℝ) (hE : 0 < E) : 0 < sin_kappa_1 eps E 1 := by
  have ht : tan_kappa_1 eps E 1 = -1e16 := by
    rw [tan_kappa_1, if_neg (lt_irrefl 1), if_pos rfl, if_pos hE]
  rw [sin_kappa_1, if_neg (lt_irrefl 1), ht]
  have h0 : (0 : ℝ) < Real.sqrt (1 + (-1e16 : ℝ) ^ 2) :=
    Real.sqrt_pos.mpr (by positivity)
  have h1 : (-1e16 : ℝ) / Real.sqrt (1 + (-1e16 : ℝ) ^ 2) < 0 :=
    div_neg_of_neg_of_pos (by norm_num) h0
  linarith

/-- Claim C2 counterexample: at `eps = 0.7`, `E = 2` (`epsS = 1`), the
derived sine tends to `-1` as `phiS → (1/2)⁻`, but the value computed at
`phiS = 1/2` with the sign-selected `±1e16` substitute is positive, hence
not equal to the one-sided limit: the `G==1` cos/sin do not coincide with
the limits and `force` is not continuous there. -/
theorem continuity_at_half_cex :
    Tendsto (fun p : ℝ => sin_kappa_1 0.7 2 (2 * p)) (𝓝[<] (1 / 2 : ℝ)) (𝓝 (-1))
      ∧ 0 < sin_kappa_1 0.7 2 (2 * (1 / 2 : ℝ))
      ∧ sin_kappa_1 0.7 2 (2 * (1 / 2 : ℝ)) ≠ -1 := by
  have hval : 0 < sin_kappa_1 0.7 2 (2 * (1 / 2 : ℝ)) := by
    rw [show (2 : ℝ) * (1 / 2) = 1 by norm_num]
    exact sin_kappa_at_one_pos 0.7 2 (by norm_num)
  exact ⟨sin_kappa_below_limit 0.7 2 (by norm_num) (by norm_num), hval,
    fun hc => by rw [hc] at hval; linarith⟩

/-- Claim C2 amended: for fixed `eps ∈ (0,1)` and `epsS > 0` the one-sided
limits of the derived cos/sin as `phiS → 1/2` agree with each other
(`cos → 0`, `sin → -1` from both sides), but the `±1e16` substitute at
`G == 1` yields a sine of the opposite sign, so the substitute's cos/sin
do not coincide with the one-sided limits and `force` is not continuous in
`phiS` at `1/2`. -/
theorem kappa_one_sided_limits (eps epsS : ℝ) (he : 0 < eps) (hE : 0 < epsS) :
    Tendsto (fun p : ℝ => sin_kappa_1 eps (2 * epsS) (2 * p)) (𝓝[<] (1 / 2 : ℝ)) (𝓝 (-1))
      ∧ Tendsto (fun p : ℝ => sin_kappa_1 eps (2 * epsS) (2 * p)) (𝓝[>] (1 / 2 : ℝ)) (𝓝 (-1))
      ∧ Tendsto (fun p : ℝ => cos_kappa_1 eps (2 * epsS) (2 * p)) (𝓝[<] (1 / 2 : ℝ)) (𝓝 0)
      ∧ Tendsto (fun p : ℝ => cos_kappa_1 eps (2 * epsS) (2 * p)) (𝓝[>] (1 / 2 : ℝ)) (𝓝 0)
      ∧ 0 < sin_kappa_1 eps (2 * epsS) (2 * (1 / 2 : ℝ)) := by
  have hE2 : 0 < 2 * epsS := by linarith
  refine ⟨sin_kappa_below_limit eps _ he hE2, sin_kappa_above_limit eps _ he hE2,
    cos_kappa_below_limit eps _ he hE2, cos_kappa_above_limit eps _ he hE2, ?_⟩
  rw [show (2 : ℝ) * (1 / 2) = 1 by norm_num]
  exact sin_kappa_at_one_pos eps _ hE2

/-- Witness for the amended C2 at `eps = 0.6`, `epsS = 1`. -/
theorem kappa_one_sided_limits_witness :
    Tendsto (fun p : ℝ => sin_kappa_1 0.6 (2 * 1) (2 * p)) (𝓝[<] (1 / 2 : ℝ)) (𝓝 (-1))
      ∧ Tendsto (fun p : ℝ => sin_kappa_1 0.6 (2 * 1) (2 * p)) (𝓝[>] (1 / 2 : ℝ)) (𝓝 (-1))
      ∧ Tendsto (fun p : ℝ => cos_kappa_1 0.6 (2 * 1) (2 * p)) (𝓝[<] (1 / 2 : ℝ)) (𝓝 0)
      ∧ Tendsto (fun p : ℝ => cos_kappa_1 0.6 (2 * 1) (2 * p)) (𝓝[>] (1 / 2 : ℝ)) (𝓝 0)
      ∧ 0 < sin_kappa_1 0.6 (2 * 1) (2 * (1 / 2 : ℝ)) :=
  kappa_one_sided_limits 0.6 1 (by norm_num) (by norm_num)

end ShortBearing

namespace Jeffcott

lemma d_nonneg : 0 ≤ d := by
  rw [d]
  positivity

/-- `O` scaled by a nonnegative factor is positive semidefinite. -/
lemma smul_O_posSemidef {a : ℝ} (ha : 0 ≤ a) : (a • O).PosSemidef := by
  constructor
  · rw [Matrix.IsHermitian]
    ext i j
    fin_cases i <;> fin_cases j <;> simp [O]
  · intro x
    simp only [Matrix.dotProduct, Matrix.mulVec, Fin.sum_univ_two, O, Pi.star_apply,
      star_trivial, Matrix.smul_apply, Matrix.of_apply, Matrix.cons_val', Matrix.cons_val_zero,
      Matrix.cons_val_one, Matrix.head_cons, Matrix.head_fin_const, Matrix.empty_val',
      Matrix.cons_val_fin_one, smul_eq_mul]
    nlinarith [mul_nonneg ha (sq_nonneg (x 0 - x 1))]

/-- `O` scaled by a nonnegative factor is symmetric. -/
lemma smul_O_isSymm (a : ℝ) : (a • O).IsSymm := by
  rw [Matrix.IsSymm]
  ext i j
  fin_cases i <;> fin_cases j <;> simp [O]

/-- A block-diagonal assembly of a PSD block is PSD. -/
lemma fromBlocks_diag_posSemidef {B : Matrix (Fin 2) (Fin 2) ℝ} (hB : B.PosSemidef) :
    (Matrix.fromBlocks B 0 0 B).PosSemidef := by
  constructor
  · rw [Matrix.IsHermitian, Matrix.fromBlocks_conjTranspose, Matrix.conjTranspose_zero,
      hB.1.eq]
  · intro x
    rw [Matrix.fromBlocks_mulVec, Matrix.dotProduct_block]
    simp only [Sum.elim_comp_inl, Sum.elim_comp_inr, Matrix.zero_mulVec, add_zero,
      Matrix.mulVec_zero, zero_add]
    exact add_nonneg (hB.2 (x ∘ Sum.inl)) (hB.2 (x ∘ Sum.inr))

/-- A block-diagonal assembly of a symmetric block is symmetric. -/
lemma fromBlocks_diag_isSymm {B : Matrix (Fin 2) (Fin 2) ℝ} (hB : B.IsSymm) :
    (Matrix.fromBlocks B 0 0 B).IsSymm := by
  have hBt : Bᵀ = B := hB
  rw [Matrix.IsSymm, Matrix.fromBlocks_transpose, Matrix.transpose_zero, hBt]

/-- Claim C8: the assembled system matrices satisfy the stated invariants:
`M` is `diag(mj, m, mj, m)`; `D` and `C` are the block-diagonal copies of
the coupling block `O` scaled by `d` and `cs`; and `M`, `D`, `C` are each
symmetric positive semi-definite. -/
theorem system_matrices_invariants :
    M = Matrix.diagonal ![mj, m, mj, m]
      ∧ D = Matrix.reindex finSumFinEquiv finSumFinEquiv
          (Matrix.fromBlocks (d • O) 0 0 (d • O))
      ∧ C = Matrix.reindex finSumFinEquiv finSumFinEquiv
          (Matrix.fromBlocks (cs • O) 0 0 (cs • O))
      ∧ (M.PosSemidef ∧ M.IsSymm) ∧ (D.PosSemidef ∧ D.IsSymm)
      ∧ (C.PosSemidef ∧ C.IsSymm) := by
  have hM : M.PosSemidef := by
    rw [M]
    refine Matrix.PosSemidef.diagonal ?_
    intro i
    fin_cases i <;> norm_num [mj, m]
  have hD : D.PosSemidef := by
    rw [D, Matrix.reindex_apply]
    exact (fromBlocks_diag_posSemidef (smul_O_posSemidef d_nonneg)).submatrix _
  have hC : C.PosSemidef := by
    rw [C, Matrix.reindex_apply]
    exact (fromBlocks_diag_posSemidef (smul_O_posSemidef (by norm_num [cs]))).submatrix _
  have hDs : D.IsSymm := by
    rw [D, Matrix.reindex_apply]
    exact (fromBlocks_diag_isSymm (smul_O_isSymm d)).submatrix _
  have hCs : C.IsSymm := by
    rw [C, Matrix.reindex_apply]
    exact (fromBlocks_diag_isSymm (smul_O_isSymm cs)).submatrix _
  exact ⟨rfl, rfl, rfl, ⟨hM, Matrix.isSymm_diagonal _⟩, ⟨hD, hDs⟩, ⟨hC, hCs⟩⟩

/-- At the all-zero state with zero external forces the derivative is
exactly `-gvec`. -/
lemma rotor_Jeffcott_zero_eval :
    rotor_Jeffcott (fun _ => 0) (fun _ => 0) 0 (fun _ => 0) = fun i => -gvec i := by
  have hq : (fun _ : Fin 8 => (0 : ℝ)) = (0 : Fin 8 → ℝ) := rfl
  have hF : Fvec (fun _ => 0) (fun _ => 0) = (0 : Fin 4 → ℝ) := by
    funext j
    fin_cases j <;> rfl
  have hv : (![(0 : ℝ), 0, 0, 0, 0, 0, 0, 0] : Fin 8 → ℝ) = (0 : Fin 8 → ℝ) := by
    funext j
    fin_cases j <;> rfl
  funext i
  simp only [rotor_Jeffcott, hq, hF, Matrix.mulVec_zero, Pi.zero_apply, hv,
    Pi.add_apply, Pi.sub_apply]
  ring

/-- The gravity vector has value `g` exactly at indices 6 and 7. -/
lemma gvec_eval : ∀ i : Fin 8, gvec i = if i = 6 ∨ i = 7 then g else 0 := by
  have h5 : (![0, 0, 0, 0, 0, 0, 1, 1] : Fin 8 → ℝ) 5 = 0 := rfl
  have h6 : (![0, 0, 0, 0, 0, 0, 1, 1] : Fin 8 → ℝ) 6 = 1 := rfl
  have h7 : (![0, 0, 0, 0, 0, 0, 1, 1] : Fin 8 → ℝ) 7 = 1 := rfl
  intro i
  fin_cases i <;> simp [gvec, h5, h6, h7]

/-- Claim C7 counterexample: at state `q = 0`, `t = 0`, with zero bearing
and unbalance forces, component 6 of the derivative — the *journal*
vertical acceleration `ydj'` — equals `-g`, not `0` as the claim asserts
of all journal acceleration components. -/
theorem derivative_at_rest_cex :
    rotor_Jeffcott (fun _ => 0) (fun _ => 0) 0 (fun _ => 0) 6 = -g
      ∧ rotor_Jeffcott (fun _ => 0) (fun _ => 0) 0 (fun _ => 0) 6 ≠ 0 := by
  have hz : rotor_Jeffcott (fun _ => 0) (fun _ => 0) 0 (fun _ => 0) 6 = -g := by
    rw [congrFun rotor_Jeffcott_zero_eval 6, gvec_eval 6]
    simp
  exact ⟨hz, by rw [hz]; norm_num [g]⟩

/-- Claim C7 amended: at state `q = 0`, `t = 0`, zero unbalance force and
zero bearing force, the derivative is `-g` on *both* vertical velocity
components — index 6 (journal, `ydj'`) and index 7 (rotor mass, `ydm'`) —
and `0` everywhere else; gravity is not confined to the rotor-mass degrees
of freedom. -/
theorem derivative_at_rest_gravity :
    ∀ i : Fin 8, rotor_Jeffcott (fun _ => 0) (fun _ => 0) 0 (fun _ => 0) i
      = if i = 6 ∨ i = 7 then -g else 0 := by
  intro i
  rw [congrFun rotor_Jeffcott_zero_eval i, gvec_eval i]
  split <;> simp

end Jeffcott
